import Mathlib

/-
Verification of the contor hexagonal-grid module (`src/contor/object.py`).

The Python module builds GeoJSON-like tile objects for a hexagonal
tessellation.  We embed it shallowly:

* numbers: Python ints become `ℤ`, Python floats become `ℝ`;
* the nested GeoJSON dictionaries become nested structures whose fields
  carry the dictionary keys (the literal key strings of the properties
  dictionary are recorded separately in `tilePropertiesKeys`);
* the Python `dict` used by `make_grid` becomes an association list with
  Python's dict semantics (`dinsert` replaces in place on an existing key,
  otherwise appends; `dlookup` finds the unique entry for a key);
* tiles cross-reference each other (`neighbors` holds the neighbouring
  tile objects).  Tiles in one grid are uniquely keyed by their native
  index `_id`, so a reference to a neighbouring tile is modelled by that
  tile's native index.
-/

namespace Contor

/-- Source: `K = math.cos(math.radians(30))` — the outer/inner radius ratio. -/
noncomputable def K : ℝ := Real.cos (30 * Real.pi / 180)

/-- Source: the `DIRECTIONS` dictionary, in source order.  Each direction
label maps to an offset in native-index space. -/
def DIRECTIONS : List (String × (ℤ × ℤ)) :=
  [("N", (1, 0)), ("NE", (1, 1)), ("SE", (0, 1)),
   ("S", (-1, 0)), ("SW", (-1, -1)), ("NW", (0, -1))]

/-- The `geometry` dictionary of a tile: `{"type": "Point", "coordinates": [x, y]}`. -/
structure PointGeometry where
  type : String
  coordinates : ℝ × ℝ

/-- The `properties` dictionary of a tile, as built by `_tile`.  The
`neighbors` dictionary maps direction labels to neighbouring tiles;
a neighbouring tile is identified by its native index (tiles within one
grid are uniquely keyed by `_id`). -/
structure TileProperties where
  subType : String
  outerRadius : ℝ
  innerRadius : ℝ
  neighbors : List (String × (ℤ × ℤ))
  _id : ℤ × ℤ

/-- A tile feature: `{"type": "Feature", "geometry": ..., "properties": ...}`. -/
structure Tile where
  type : String
  geometry : PointGeometry
  properties : TileProperties

/-- The value returned by `make_grid`: a feature collection of tiles. -/
structure TileCollection where
  type : String
  features : List Tile

/-- The `geometry` dictionary of a path: `{"type": "LineString", "coordinates": [...]}`. -/
structure LineStringGeometry where
  type : String
  coordinates : List (ℝ × ℝ)

/-- The `properties` dictionary of a path: `{"subType": "Path"}`. -/
structure PathProperties where
  subType : String

/-- The value returned by `make_path`. -/
structure HexPath where
  type : String
  geometry : LineStringGeometry
  properties : PathProperties

/-- The literal key strings of the `properties` dictionary built by `_tile`,
in source order.  The structural embedding above erases the key strings into
field names, so they are recorded here verbatim from the source. -/
def tilePropertiesKeys : List String :=
  ["subType", "outerRadius", "innerRadius", "neighbors", "_id"]

/-- Source: `def _ij(i, j): return (i, -j+i//2)`.  Python `//` is floor
division, i.e. `Int.fdiv`. -/
def _ij (i j : ℤ) : ℤ × ℤ := (i, -j + Int.fdiv i 2)

/-- Source: `def _tile_xy(R, i, j): return [i*3/2*R, (i - 2*j)*K*R]`. -/
noncomputable def _tile_xy (R : ℝ) (i j : ℤ) : ℝ × ℝ :=
  ((i : ℝ) * 3 / 2 * R, ((i : ℝ) - 2 * (j : ℝ)) * K * R)

/-- Source: `_tile(R, i, j)` — builds one tile dictionary with an empty
`neighbors` dictionary. -/
noncomputable def _tile (R : ℝ) (i j : ℤ) : Tile :=
  { type := "Feature"
    geometry := { type := "Point", coordinates := _tile_xy R i j }
    properties :=
      { subType := "Hexagon"
        outerRadius := R
        innerRadius := K * R
        neighbors := []
        _id := (i, j) } }

/-- Source: `_list_add(a, b)` — componentwise addition of two index pairs. -/
def _list_add (a b : ℤ × ℤ) : ℤ × ℤ := (a.1 + b.1, a.2 + b.2)

/-- Source: `_id(tile)` — the accessor returning `tile["properties"]["_id"]`. -/
def tile_id (t : Tile) : ℤ × ℤ := t.properties._id

/-- Source: `_neighbor_index(tile, direction)` — the source passes the
direction label and looks its offset up in `DIRECTIONS`; here the offset is
passed directly. -/
def _neighbor_index (t : Tile) (off : ℤ × ℤ) : ℤ × ℤ := _list_add (tile_id t) off

/-- Python-dict insertion on an association list: assigning to an existing
key replaces its value in place, otherwise the entry is appended. -/
def dinsert {β : Type} : List ((ℤ × ℤ) × β) → (ℤ × ℤ) → β → List ((ℤ × ℤ) × β)
  | [], k, v => [(k, v)]
  | kv :: rest, k, v => if kv.1 = k then (k, v) :: rest else kv :: dinsert rest k v

/-- Python-dict lookup (`dict.get`): the value at the key, if present. -/
def dlookup {β : Type} : List ((ℤ × ℤ) × β) → (ℤ × ℤ) → Option β
  | [], _ => none
  | kv :: rest, k => if kv.1 = k then some kv.2 else dlookup rest k

/-- Python `range(n)`: `[0, 1, ..., n-1]`, empty when `n ≤ 0`. -/
def pyRange (n : ℤ) : List ℤ := (List.range n.toNat).map Int.ofNat

/-- Source: `cartesian_product(range(width), range(height))`, in iteration
order (`i` outer, `j` inner). -/
def prodPairs (w h : ℤ) : List (ℤ × ℤ) :=
  (pyRange w).flatMap (fun i => (pyRange h).map (fun j => (i, j)))

/-- The dict comprehension in `make_grid`:
`{_ij(i, j): _tile(radius, *_ij(i, j)) for i, j in cartesian_product(...)}`. -/
noncomputable def gridTiles (radius : ℝ) (width height : ℤ) : List ((ℤ × ℤ) × Tile) :=
  (prodPairs width height).foldl
    (fun m p => dinsert m (_ij p.1 p.2) (_tile radius (_ij p.1 p.2).1 (_ij p.1 p.2).2)) []

/-- The neighbor-linking pass of `make_grid`, for one tile: for each
direction, look the neighbouring index up in the tile dict and record the
found tile (identified by its `_id`).  The source guard `if neighbor:` tests
Python truthiness; a tile dictionary is always non-empty, so it is
equivalent to a present-key test. -/
noncomputable def linkTile (tiles : List ((ℤ × ℤ) × Tile)) (t : Tile) : Tile :=
  let ns := DIRECTIONS.filterMap (fun dir =>
    (dlookup tiles (_neighbor_index t dir.2)).map (fun nb => (dir.1, nb.properties._id)))
  { t with properties := { t.properties with neighbors := ns } }

/-- Source: `make_grid(radius, width, height)` — build the tile dict, link
every tile's neighbors, and return the feature collection of the dict's
values. -/
noncomputable def make_grid (radius : ℝ) (width height : ℤ) : TileCollection :=
  { type := "FeatureCollection"
    features := (gridTiles radius width height).map
      (fun kv => linkTile (gridTiles radius width height) kv.2) }

/-- Source: `make_path(radius, points)` — each point is passed through
`_ij` and then `_tile_xy`. -/
noncomputable def make_path (radius : ℝ) (points : List (ℤ × ℤ)) : HexPath :=
  { type := "Feature"
    geometry :=
      { type := "LineString"
        coordinates := points.map (fun p => _tile_xy radius (_ij p.1 p.2).1 (_ij p.1 p.2).2) }
    properties := { subType := "Path" } }

/-- The tile dict as a plain association list, with no overwriting.  The
lemma `gridTiles_eq_gridList` shows `gridTiles` equals this because the keys
never collide. -/
noncomputable def gridList (radius : ℝ) (width height : ℤ) : List ((ℤ × ℤ) × Tile) :=
  (prodPairs width height).map
    (fun p => (_ij p.1 p.2, _tile radius (_ij p.1 p.2).1 (_ij p.1 p.2).2))

/-- The spec's coordinate formula, written exactly as the spec states it:
`x = i * (3/2) * R`, `y = (i - 2*j) * K * R` with `K = cos(30°)`. -/
noncomputable def specTileXY (R : ℝ) (i j : ℤ) : ℝ × ℝ :=
  ((i : ℝ) * (3 / 2) * R, ((i : ℝ) - 2 * (j : ℝ)) * K * R)

/-- The opposite of a direction label, as the spec describes the pairs
N/S, NE/SW, SE/NW. -/
def opposite : String → String
  | "N" => "S"
  | "NE" => "SW"
  | "SE" => "NW"
  | "S" => "N"
  | "SW" => "NE"
  | "NW" => "SE"
  | d => d

/-! ### Basic lemmas about the index remapping and the enumeration -/

theorem _ij_inj {i₁ j₁ i₂ j₂ : ℤ} (h : _ij i₁ j₁ = _ij i₂ j₂) : i₁ = i₂ ∧ j₁ = j₂ := by
  unfold _ij at h
  rw [Prod.mk.injEq] at h
  obtain ⟨h1, h2⟩ := h
  subst h1
  exact ⟨rfl, by omega⟩

theorem mem_pyRange {n i : ℤ} : i ∈ pyRange n ↔ 0 ≤ i ∧ i < n := by
  unfold pyRange
  simp only [List.mem_map, List.mem_range, Int.ofNat_eq_natCast]
  constructor
  · rintro ⟨k, hk, rfl⟩
    omega
  · rintro ⟨h0, h1⟩
    exact ⟨i.toNat, by omega, by omega⟩

theorem pyRange_nodup (n : ℤ) : (pyRange n).Nodup :=
  (List.nodup_range _).map (fun _ _ hab => Int.ofNat_inj.mp hab)

theorem mem_prodPairs {w h : ℤ} {p : ℤ × ℤ} :
    p ∈ prodPairs w h ↔ 0 ≤ p.1 ∧ p.1 < w ∧ 0 ≤ p.2 ∧ p.2 < h := by
  unfold prodPairs
  simp only [List.mem_flatMap, List.mem_map, mem_pyRange]
  constructor
  · rintro ⟨i, hi, j, hj, rfl⟩
    exact ⟨hi.1, hi.2, hj.1, hj.2⟩
  · rintro ⟨h1, h2, h3, h4⟩
    exact ⟨p.1, ⟨h1, h2⟩, p.2, ⟨h3, h4⟩, rfl⟩

theorem prodPairs_nodup (w h : ℤ) : (prodPairs w h).Nodup := by
  unfold prodPairs
  refine List.nodup_flatMap.mpr ⟨fun i _ => ?_, ?_⟩
  · exact (pyRange_nodup h).map (fun a b hab => by
      simpa using congrArg Prod.snd hab)
  · have hpw : List.Pairwise (fun a b : ℤ => a ≠ b) (pyRange w) := pyRange_nodup w
    refine hpw.imp ?_
    intro i₁ i₂ hne p hp₁ hp₂
    simp only [List.mem_map] at hp₁ hp₂
    obtain ⟨j₁, _, rfl⟩ := hp₁
    obtain ⟨j₂, _, hc⟩ := hp₂
    exact hne (congrArg Prod.fst hc).symm

theorem prodPairs_length (w h : ℤ) : (prodPairs w h).length = w.toNat * h.toNat := by
  unfold prodPairs
  rw [List.length_flatMap]
  have h1 : (List.map (List.length ∘ fun i => (pyRange h).map fun j => (i, j)) (pyRange w))
      = List.replicate (pyRange w).length (pyRange h).length := by
    rw [show (List.length ∘ fun i : ℤ => (pyRange h).map fun j => (i, j))
        = fun _ : ℤ => (pyRange h).length from funext (fun i => by simp)]
    exact List.map_const' _ _
  rw [h1, List.sum_const_nat]
  simp [pyRange]

/-! ### The Python dict model -/

theorem dinsert_of_not_mem {β : Type} {m : List ((ℤ × ℤ) × β)} {k : ℤ × ℤ} {v : β}
    (h : k ∉ m.map Prod.fst) : dinsert m k v = m ++ [(k, v)] := by
  induction m with
  | nil => rfl
  | cons kv rest ih =>
    simp only [List.map_cons, List.mem_cons] at h
    push_neg at h
    rw [dinsert, if_neg (fun hh => h.1 hh.symm), ih h.2]
    rfl

theorem foldl_dinsert_eq_append {β : Type} :
    ∀ (l m : List ((ℤ × ℤ) × β)), (((m ++ l).map Prod.fst).Nodup) →
      l.foldl (fun acc kv => dinsert acc kv.1 kv.2) m = m ++ l := by
  intro l
  induction l with
  | nil => intro m _; simp
  | cons kv rest ih =>
    intro m hnd
    have hk : kv.1 ∉ m.map Prod.fst := by
      rw [List.map_append] at hnd
      have := (List.nodup_append.mp hnd).2.2
      intro hmem
      exact this hmem (by simp)
    rw [List.foldl_cons, dinsert_of_not_mem hk, ih (m ++ [kv])
      (by rwa [List.append_cons] at hnd)]
    simp

theorem dlookup_eq_some_mem {β : Type} {m : List ((ℤ × ℤ) × β)} {k : ℤ × ℤ} {v : β}
    (h : dlookup m k = some v) : (k, v) ∈ m := by
  induction m with
  | nil => simp [dlookup] at h
  | cons kv rest ih =>
    rw [dlookup] at h
    by_cases hk : kv.1 = k
    · rw [if_pos hk] at h
      injection h with hv
      subst hv
      subst hk
      exact List.mem_cons_self _ _
    · rw [if_neg hk] at h
      exact List.mem_cons_of_mem _ (ih h)

theorem dlookup_of_mem {β : Type} {m : List ((ℤ × ℤ) × β)} {k : ℤ × ℤ} {v : β}
    (hnd : (m.map Prod.fst).Nodup) (h : (k, v) ∈ m) : dlookup m k = some v := by
  induction m with
  | nil => simp at h
  | cons kv rest ih =>
    rw [List.map_cons, List.nodup_cons] at hnd
    rcases List.mem_cons.mp h with heq | hmem
    · have h1 : kv.1 = k := by rw [← heq]
      have h2 : kv.2 = v := by rw [← heq]
      rw [dlookup, if_pos h1, h2]
    · have hk : kv.1 ≠ k := by
        intro hk
        exact hnd.1 (hk ▸ (List.mem_map.mpr ⟨(k, v), hmem, rfl⟩))
      rw [dlookup, if_neg hk]
      exact ih hnd.2 hmem

/-! ### The tile dict never overwrites: its keys are pairwise distinct -/

theorem gridList_keys (radius : ℝ) (w h : ℤ) :
    (gridList radius w h).map Prod.fst = (prodPairs w h).map (fun p => _ij p.1 p.2) := by
  unfold gridList
  rw [List.map_map]
  rfl

theorem gridList_keys_nodup (radius : ℝ) (w h : ℤ) :
    ((gridList radius w h).map Prod.fst).Nodup := by
  rw [gridList_keys]
  refine (prodPairs_nodup w h).map ?_
  intro p q hpq
  obtain ⟨h1, h2⟩ := _ij_inj hpq
  exact Prod.ext h1 h2

theorem gridTiles_eq_gridList (radius : ℝ) (w h : ℤ) :
    gridTiles radius w h = gridList radius w h := by
  unfold gridTiles
  have hfold : (prodPairs w h).foldl
      (fun m p => dinsert m (_ij p.1 p.2) (_tile radius (_ij p.1 p.2).1 (_ij p.1 p.2).2)) []
      = (gridList radius w h).foldl (fun acc kv => dinsert acc kv.1 kv.2) [] := by
    unfold gridList
    rw [List.foldl_map]
  rw [hfold, foldl_dinsert_eq_append _ [] (by simpa using gridList_keys_nodup radius w h)]
  rfl

theorem mem_gridList {radius : ℝ} {w h : ℤ} {kv : (ℤ × ℤ) × Tile} :
    kv ∈ gridList radius w h ↔
      ∃ p ∈ prodPairs w h,
        kv = (_ij p.1 p.2, _tile radius (_ij p.1 p.2).1 (_ij p.1 p.2).2) := by
  unfold gridList
  simp only [List.mem_map]
  constructor
  · rintro ⟨p, hp, rfl⟩; exact ⟨p, hp, rfl⟩
  · rintro ⟨p, hp, rfl⟩; exact ⟨p, hp, rfl⟩

/-! ### Characterizing the features of a grid -/

theorem make_grid_features (radius : ℝ) (w h : ℤ) :
    (make_grid radius w h).features
      = (prodPairs w h).map
          (fun p => linkTile (gridList radius w h)
            (_tile radius (_ij p.1 p.2).1 (_ij p.1 p.2).2)) := by
  show ((gridTiles radius w h).map (fun kv => linkTile (gridTiles radius w h) kv.2)) = _
  simp only [gridTiles_eq_gridList, gridList, List.map_map]
  rfl

theorem mem_make_grid_features {radius : ℝ} {w h : ℤ} {t : Tile} :
    t ∈ (make_grid radius w h).features ↔
      ∃ p ∈ prodPairs w h,
        t = linkTile (gridList radius w h)
          (_tile radius (_ij p.1 p.2).1 (_ij p.1 p.2).2) := by
  rw [make_grid_features]
  simp only [List.mem_map]
  constructor
  · rintro ⟨p, hp, rfl⟩; exact ⟨p, hp, rfl⟩
  · rintro ⟨p, hp, rfl⟩; exact ⟨p, hp, rfl⟩

theorem linkTile_id (tiles : List ((ℤ × ℤ) × Tile)) (t : Tile) :
    (linkTile tiles t).properties._id = t.properties._id := rfl

theorem linkTile_neighbors (tiles : List ((ℤ × ℤ) × Tile)) (t : Tile) :
    (linkTile tiles t).properties.neighbors
      = DIRECTIONS.filterMap (fun dir =>
          (dlookup tiles (_neighbor_index t dir.2)).map
            (fun nb => (dir.1, nb.properties._id))) := rfl

theorem mem_linkTile_neighbors {tiles : List ((ℤ × ℤ) × Tile)} {t : Tile} {d : String}
    {n : ℤ × ℤ} :
    (d, n) ∈ (linkTile tiles t).properties.neighbors ↔
      ∃ off, (d, off) ∈ DIRECTIONS ∧
        ∃ nb, dlookup tiles (_list_add t.properties._id off) = some nb ∧
          n = nb.properties._id := by
  rw [linkTile_neighbors]
  simp only [List.mem_filterMap, Option.map_eq_some']
  constructor
  · rintro ⟨dir, hdir, nb, hlk, heq⟩
    rw [Prod.mk.injEq] at heq
    obtain ⟨h1, h2⟩ := heq
    subst h1
    exact ⟨dir.2, hdir, nb, hlk, h2.symm⟩
  · rintro ⟨off, hoff, nb, hlk, rfl⟩
    exact ⟨(d, off), hoff, nb, hlk, rfl⟩

theorem dlookup_gridList_some {radius : ℝ} {w h : ℤ} {k : ℤ × ℤ} {nb : Tile}
    (hl : dlookup (gridList radius w h) k = some nb) :
    nb = _tile radius k.1 k.2 ∧ k ∈ (prodPairs w h).map (fun p => _ij p.1 p.2) := by
  have hmem := dlookup_eq_some_mem hl
  obtain ⟨p, hp, heq⟩ := mem_gridList.mp hmem
  have h1 : k = _ij p.1 p.2 := congrArg Prod.fst heq
  have h2 : nb = _tile radius (_ij p.1 p.2).1 (_ij p.1 p.2).2 := congrArg Prod.snd heq
  subst h1
  exact ⟨h2, List.mem_map.mpr ⟨p, hp, rfl⟩⟩

theorem dlookup_gridList_of_mem {radius : ℝ} {w h i j : ℤ}
    (hi : 0 ≤ i) (hiw : i < w) (hj : 0 ≤ j) (hjh : j < h) :
    dlookup (gridList radius w h) (_ij i j)
      = some (_tile radius (_ij i j).1 (_ij i j).2) := by
  apply dlookup_of_mem (gridList_keys_nodup radius w h)
  exact mem_gridList.mpr ⟨(i, j), mem_prodPairs.mpr ⟨hi, hiw, hj, hjh⟩, rfl⟩

theorem dlookup_gridList_of_key {radius : ℝ} {w h : ℤ} {k : ℤ × ℤ}
    (hk : k ∈ (prodPairs w h).map (fun p => _ij p.1 p.2)) :
    dlookup (gridList radius w h) k = some (_tile radius k.1 k.2) := by
  obtain ⟨p, hp, rfl⟩ := List.mem_map.mp hk
  obtain ⟨hp1, hp2, hp3, hp4⟩ := mem_prodPairs.mp hp
  exact dlookup_gridList_of_mem hp1 hp2 hp3 hp4

theorem opposite_mem {d : String} {off : ℤ × ℤ} (h : (d, off) ∈ DIRECTIONS) :
    (opposite d, (-off.1, -off.2)) ∈ DIRECTIONS ∧ off ≠ (0, 0) := by
  simp only [DIRECTIONS, List.mem_cons, List.not_mem_nil, or_false] at h
  rcases h with h | h | h | h | h | h <;>
    (rw [Prod.mk.injEq] at h; obtain ⟨rfl, rfl⟩ := h; exact ⟨by decide, by decide⟩)

theorem _list_add_neg (a off : ℤ × ℤ) :
    _list_add (_list_add a off) (-off.1, -off.2) = a := by
  unfold _list_add
  rw [Prod.mk.injEq]
  constructor <;> (simp only; omega)

theorem _list_add_ne_self (a : ℤ × ℤ) {off : ℤ × ℤ} (hoff : off ≠ (0, 0)) :
    _list_add a off ≠ a := by
  obtain ⟨a1, a2⟩ := a
  obtain ⟨o1, o2⟩ := off
  unfold _list_add
  intro hcontra
  rw [Prod.mk.injEq] at hcontra
  dsimp only at hcontra
  apply hoff
  rw [Prod.mk.injEq]
  omega

theorem features_ids (radius : ℝ) (w h : ℤ) :
    ((make_grid radius w h).features).map (fun t => t.properties._id)
      = (prodPairs w h).map (fun p => _ij p.1 p.2) := by
  rw [make_grid_features, List.map_map]
  rfl

theorem linkTile_mem_features {R : ℝ} {w h i j : ℤ}
    (hi : 0 ≤ i) (hiw : i < w) (hj : 0 ≤ j) (hjh : j < h) :
    linkTile (gridList R w h) (_tile R (_ij i j).1 (_ij i j).2)
      ∈ (make_grid R w h).features :=
  mem_make_grid_features.mpr ⟨(i, j), mem_prodPairs.mpr ⟨hi, hiw, hj, hjh⟩, rfl⟩

/-! ### The claims -/

/-- C4: the rectangular-to-native remapping `_ij : (i, j) ↦ (i, -j + ⌊i/2⌋)` is
injective over the enumerated domain `[0, width) × [0, height)` for every
`width ≥ 0` and `height ≥ 0`: no two distinct rectangular inputs produce the
same native index pair. -/
theorem gridIndexer_injective (width height i₁ j₁ i₂ j₂ : ℤ)
    (hi₁ : 0 ≤ i₁) (hiw₁ : i₁ < width) (hj₁ : 0 ≤ j₁) (hjh₁ : j₁ < height)
    (hi₂ : 0 ≤ i₂) (hiw₂ : i₂ < width) (hj₂ : 0 ≤ j₂) (hjh₂ : j₂ < height)
    (heq : _ij i₁ j₁ = _ij i₂ j₂) : i₁ = i₂ ∧ j₁ = j₂ :=
  _ij_inj heq

/-- Witness for `gridIndexer_injective` at width = 2, height = 1, both inputs (1, 0). -/
theorem gridIndexer_injective_witness :
    _ij 1 0 = _ij 1 0 ∧ ((1 : ℤ) = 1 ∧ (0 : ℤ) = 0) :=
  ⟨by decide,
    gridIndexer_injective 2 1 1 0 1 0 (by decide) (by decide) (by decide) (by decide)
      (by decide) (by decide) (by decide) (by decide) (by decide)⟩

/-- C6: for every positive radius `R`, every tile produced by `make_grid`
has `innerRadius = outerRadius * cos(30°)` and `outerRadius = R`. -/
theorem radius_ratio (radius : ℝ) (hR : 0 < radius) (width height : ℤ) (t : Tile)
    (ht : t ∈ (make_grid radius width height).features) :
    t.properties.innerRadius = t.properties.outerRadius * K ∧
      t.properties.outerRadius = radius := by
  obtain ⟨p, hp, rfl⟩ := mem_make_grid_features.mp ht
  constructor
  · show K * radius = radius * K
    ring
  · rfl

/-- Witness for `radius_ratio` at radius 5 on the 1×1 grid. -/
theorem radius_ratio_witness :
    (0 : ℝ) < 5 ∧
      ((linkTile (gridList 5 1 1) (_tile 5 0 0)).properties.innerRadius
          = (linkTile (gridList 5 1 1) (_tile 5 0 0)).properties.outerRadius * K ∧
        (linkTile (gridList 5 1 1) (_tile 5 0 0)).properties.outerRadius = 5) :=
  ⟨by norm_num,
    radius_ratio 5 (by norm_num) 1 1 _
      (linkTile_mem_features (R := 5) (w := 1) (h := 1) (i := 0) (j := 0)
        (by decide) (by decide) (by decide) (by decide))⟩

/-- C9: `make_grid` raises no error for any integer width/height and any
radius (it is a total function in this embedding); when `width ≤ 0` or
`height ≤ 0` — including width 0, height 0, and out-of-domain negative
values — it returns a well-formed FeatureCollection whose features list is
empty. -/
theorem degenerate_empty (radius : ℝ) (width height : ℤ)
    (h : width ≤ 0 ∨ height ≤ 0) :
    (make_grid radius width height).type = "FeatureCollection" ∧
      (make_grid radius width height).features = [] := by
  refine ⟨rfl, ?_⟩
  rw [make_grid_features]
  have hpp : prodPairs width height = [] := by
    rcases h with h | h
    · have hw : pyRange width = [] := by
        unfold pyRange
        rw [Int.toNat_of_nonpos h]
        rfl
      unfold prodPairs
      rw [hw]
      rfl
    · have hh : pyRange height = [] := by
        unfold pyRange
        rw [Int.toNat_of_nonpos h]
        rfl
      unfold prodPairs
      rw [hh]
      simp
  rw [hpp]
  rfl

/-- Witness for `degenerate_empty` at width = -3 (out of domain), height = 4. -/
theorem degenerate_empty_witness :
    ((-3 : ℤ) ≤ 0 ∨ (4 : ℤ) ≤ 0) ∧
      ((make_grid 1 (-3) 4).type = "FeatureCollection" ∧
        (make_grid 1 (-3) 4).features = []) :=
  ⟨Or.inl (by decide), degenerate_empty 1 (-3) 4 (Or.inl (by decide))⟩

/-- C8: `make_path` is length- and order-preserving: the LineString
coordinates have exactly one coordinate pair per input point, in the same
order (position `k` of the output is the projection of position `k` of the
input), with no deduplication of repeated points. -/
theorem make_path_preserving (radius : ℝ) (points : List (ℤ × ℤ)) :
    (make_path radius points).geometry.coordinates.length = points.length ∧
      ∀ k : ℕ, ((make_path radius points).geometry.coordinates)[k]?
        = (points[k]?).map (fun p => _tile_xy radius (_ij p.1 p.2).1 (_ij p.1 p.2).2) := by
  constructor
  · show (points.map _).length = points.length
    rw [List.length_map]
  · intro k
    show (points.map _)[k]? = _
    rw [List.getElem?_map]

/-- C5: for every positive radius and all non-negative width and height,
`make_grid` returns a FeatureCollection with exactly `width * height` tiles,
whose native indices (`_id`) are pairwise distinct. -/
theorem tile_count (radius : ℝ) (hR : 0 < radius) (width height : ℤ)
    (hw : 0 ≤ width) (hh : 0 ≤ height) :
    (make_grid radius width height).type = "FeatureCollection" ∧
      ((make_grid radius width height).features.length : ℤ) = width * height ∧
      (((make_grid radius width height).features).map (fun t => t.properties._id)).Nodup := by
  refine ⟨rfl, ?_, ?_⟩
  · rw [make_grid_features, List.length_map, prodPairs_length]
    push_cast
    rw [Int.toNat_of_nonneg hw, Int.toNat_of_nonneg hh]
  · rw [features_ids]
    refine (prodPairs_nodup width height).map ?_
    intro p q hpq
    obtain ⟨h1, h2⟩ := _ij_inj hpq
    exact Prod.ext h1 h2

/-- Witness for `tile_count` on `make_grid 5 8 7`: 56 tiles with distinct ids. -/
theorem tile_count_witness :
    (0 : ℝ) < 5 ∧
      ((make_grid 5 8 7).type = "FeatureCollection" ∧
        ((make_grid 5 8 7).features.length : ℤ) = 8 * 7 ∧
        (((make_grid 5 8 7).features).map (fun t => t.properties._id)).Nodup) :=
  ⟨by norm_num, tile_count 5 (by norm_num) 8 7 (by decide) (by decide)⟩

theorem _tile_xy_eq_spec (radius : ℝ) (i j : ℤ) :
    _tile_xy radius i j = specTileXY radius i j := by
  unfold _tile_xy specTileXY
  rw [Prod.mk.injEq]
  exact ⟨by ring, rfl⟩

/-- C2: for every positive radius, every tile of `make_grid` whose native
index is `(i, j)` has geometry coordinates `(i * (3/2) * R, (i - 2*j) * K * R)`
with `K = cos(30°)`, and `make_path` emits the same formula for each input
point after the rectangular-to-native remapping `_ij`. -/
theorem coordinate_transform (radius : ℝ) (hR : 0 < radius) (width height : ℤ) (t : Tile)
    (ht : t ∈ (make_grid radius width height).features)
    (points : List (ℤ × ℤ)) (k : ℕ) :
    t.geometry.coordinates = specTileXY radius t.properties._id.1 t.properties._id.2 ∧
      ((make_path radius points).geometry.coordinates)[k]?
        = (points[k]?).map (fun p => specTileXY radius (_ij p.1 p.2).1 (_ij p.1 p.2).2) := by
  constructor
  · obtain ⟨p, hp, rfl⟩ := mem_make_grid_features.mp ht
    show _tile_xy radius (_ij p.1 p.2).1 (_ij p.1 p.2).2
        = specTileXY radius (_ij p.1 p.2).1 (_ij p.1 p.2).2
    exact _tile_xy_eq_spec radius _ _
  · show (points.map (fun p => _tile_xy radius (_ij p.1 p.2).1 (_ij p.1 p.2).2))[k]? = _
    rw [List.getElem?_map]
    cases hk : points[k]? with
    | none => rfl
    | some p =>
      simp only [Option.map_some']
      rw [_tile_xy_eq_spec]

/-- Witness for `coordinate_transform` at radius 5 on the 1×1 grid and the
one-point path [(0, 0)]. -/
theorem coordinate_transform_witness :
    (0 : ℝ) < 5 ∧
      ((linkTile (gridList 5 1 1) (_tile 5 0 0)).geometry.coordinates
          = specTileXY 5 0 0 ∧
        ((make_path 5 [((0 : ℤ), (0 : ℤ))]).geometry.coordinates)[0]?
          = some (specTileXY 5 0 0)) :=
  ⟨by norm_num,
    coordinate_transform 5 (by norm_num) 1 1 _
      (linkTile_mem_features (R := 5) (w := 1) (h := 1) (i := 0) (j := 0)
        (by decide) (by decide) (by decide) (by decide))
      [((0 : ℤ), (0 : ℤ))] 0⟩

/-- C1: in every grid returned by `make_grid`, if tile `t` records a
neighbor under direction `d`, then the referenced tile is a tile `N` of the
grid and `N` records `t` under the opposite direction (N/S, NE/SW, SE/NW
are opposite pairs). -/
theorem neighbor_symmetry (radius : ℝ) (width height : ℤ) (t : Tile)
    (ht : t ∈ (make_grid radius width height).features) (d : String) (n : ℤ × ℤ)
    (hn : (d, n) ∈ t.properties.neighbors) :
    ∃ N ∈ (make_grid radius width height).features,
      N.properties._id = n ∧ (opposite d, t.properties._id) ∈ N.properties.neighbors := by
  obtain ⟨p, hp, rfl⟩ := mem_make_grid_features.mp ht
  rw [mem_linkTile_neighbors] at hn
  obtain ⟨off, hoff, nb, hlk, rfl⟩ := hn
  obtain ⟨hnb, hkey⟩ := dlookup_gridList_some hlk
  obtain ⟨q, hq, hkq⟩ := List.mem_map.mp hkey
  refine ⟨linkTile (gridList radius width height)
    (_tile radius (_ij q.1 q.2).1 (_ij q.1 q.2).2),
    mem_make_grid_features.mpr ⟨q, hq, rfl⟩, ?_, ?_⟩
  · rw [linkTile_id, hnb]
    exact hkq
  · rw [mem_linkTile_neighbors]
    refine ⟨(-off.1, -off.2), (opposite_mem hoff).1,
      _tile radius (_ij p.1 p.2).1 (_ij p.1 p.2).2, ?_, rfl⟩
    have hback : _list_add ((_tile radius (_ij q.1 q.2).1 (_ij q.1 q.2).2).properties._id)
        (-off.1, -off.2) = _ij p.1 p.2 := by
      show _list_add (_ij q.1 q.2) (-off.1, -off.2) = _ij p.1 p.2
      rw [hkq]
      exact _list_add_neg (_ij p.1 p.2) off
    rw [hback]
    obtain ⟨hp1, hp2, hp3, hp4⟩ := mem_prodPairs.mp hp
    exact dlookup_gridList_of_mem hp1 hp2 hp3 hp4

/-- Witness for `neighbor_symmetry` on the 2×1 grid: the (0,0) tile has the
(1,0) tile under "N", and that tile has the (0,0) tile back under "S". -/
theorem neighbor_symmetry_witness :
    ∃ N ∈ (make_grid 1 2 1).features,
      N.properties._id = ((1 : ℤ), (0 : ℤ)) ∧
        (opposite "N", (linkTile (gridList 1 2 1) (_tile 1 0 0)).properties._id)
          ∈ N.properties.neighbors :=
  neighbor_symmetry 1 2 1 _
    (linkTile_mem_features (R := 1) (w := 2) (h := 1) (i := 0) (j := 0)
      (by decide) (by decide) (by decide) (by decide))
    "N" ((1 : ℤ), (0 : ℤ)) (by decide)

/-- C10: every neighbor reference recorded by `make_grid` points at a tile of
the grid, the referenced native index is the source tile's index plus the
direction's offset, and no tile is its own neighbor. -/
theorem neighbor_closure (radius : ℝ) (width height : ℤ) (t : Tile)
    (ht : t ∈ (make_grid radius width height).features) (d : String) (n : ℤ × ℤ)
    (hn : (d, n) ∈ t.properties.neighbors) :
    (∃ N ∈ (make_grid radius width height).features, N.properties._id = n) ∧
      (∃ off, (d, off) ∈ DIRECTIONS ∧ n = _list_add t.properties._id off) ∧
      n ≠ t.properties._id := by
  obtain ⟨p, hp, rfl⟩ := mem_make_grid_features.mp ht
  rw [mem_linkTile_neighbors] at hn
  obtain ⟨off, hoff, nb, hlk, rfl⟩ := hn
  obtain ⟨hnb, hkey⟩ := dlookup_gridList_some hlk
  obtain ⟨q, hq, hkq⟩ := List.mem_map.mp hkey
  have hnbid : nb.properties._id
      = _list_add ((_tile radius (_ij p.1 p.2).1 (_ij p.1 p.2).2).properties._id) off := by
    rw [hnb]
    rfl
  refine ⟨⟨linkTile (gridList radius width height)
      (_tile radius (_ij q.1 q.2).1 (_ij q.1 q.2).2),
      mem_make_grid_features.mpr ⟨q, hq, rfl⟩, ?_⟩, ⟨off, hoff, ?_⟩, ?_⟩
  · rw [linkTile_id, hnb]
    exact hkq
  · exact hnbid
  · rw [hnbid]
    exact _list_add_ne_self _ (opposite_mem hoff).2

/-- Witness for `neighbor_closure` on the 2×1 grid: the "N" neighbor of the
(0,0) tile is the grid tile (1,0) = (0,0) + (1,0), and is not (0,0) itself. -/
theorem neighbor_closure_witness :
    (∃ N ∈ (make_grid 1 2 1).features, N.properties._id = ((1 : ℤ), (0 : ℤ))) ∧
      (∃ off, ("N", off) ∈ DIRECTIONS ∧
        ((1 : ℤ), (0 : ℤ))
          = _list_add (linkTile (gridList 1 2 1) (_tile 1 0 0)).properties._id off) ∧
      ((1 : ℤ), (0 : ℤ)) ≠ (linkTile (gridList 1 2 1) (_tile 1 0 0)).properties._id :=
  neighbor_closure 1 2 1 _
    (linkTile_mem_features (R := 1) (w := 2) (h := 1) (i := 0) (j := 0)
      (by decide) (by decide) (by decide) (by decide))
    "N" ((1 : ℤ), (0 : ℤ)) (by decide)

/-- C3 counterexample: the claim says the properties mapping has "a key named
id", but the key written by `_tile` is `"_id"`; the grid `make_grid 1 1 1`
has a tile (features is non-empty) and the properties keys do not include
`"id"`. -/
theorem tile_id_key_counterexample :
    (make_grid 1 1 1).features.length = 1 ∧ "id" ∉ tilePropertiesKeys := by
  constructor
  · rw [make_grid_features, List.length_map]
    decide
  · decide

/-- C3 (amended): every tile produced by `make_grid` is a Feature with a
Point geometry holding the coordinate pair computed from its native index,
and a properties mapping containing subType "Hexagon", outerRadius,
innerRadius, a neighbors mapping whose keys are direction labels, and a key
named `_id` (not `id`) holding the native index pair. -/
theorem tile_shape (radius : ℝ) (width height : ℤ) (t : Tile)
    (ht : t ∈ (make_grid radius width height).features) :
    t.type = "Feature" ∧ t.geometry.type = "Point" ∧
      t.geometry.coordinates = _tile_xy radius t.properties._id.1 t.properties._id.2 ∧
      t.properties.subType = "Hexagon" ∧
      t.properties.outerRadius = radius ∧ t.properties.innerRadius = K * radius ∧
      (∀ dn ∈ t.properties.neighbors, dn.1 ∈ DIRECTIONS.map Prod.fst) ∧
      tilePropertiesKeys = ["subType", "outerRadius", "innerRadius", "neighbors", "_id"] ∧
      (∃ i j : ℤ, t.properties._id = (i, j)) := by
  obtain ⟨p, hp, rfl⟩ := mem_make_grid_features.mp ht
  refine ⟨rfl, rfl, rfl, rfl, rfl, rfl, ?_, rfl,
    (_ij p.1 p.2).1, (_ij p.1 p.2).2, rfl⟩
  intro dn hdn
  rw [linkTile_neighbors] at hdn
  obtain ⟨dir, hdir, hmap⟩ := List.mem_filterMap.mp hdn
  obtain ⟨nb, _, heq⟩ := Option.map_eq_some'.mp hmap
  rw [← heq]
  exact List.mem_map.mpr ⟨dir, hdir, rfl⟩

/-- Witness for `tile_shape`: the single tile of `make_grid 1 1 1`. -/
theorem tile_shape_witness :
    (linkTile (gridList 1 1 1) (_tile 1 0 0)).type = "Feature" ∧
      (linkTile (gridList 1 1 1) (_tile 1 0 0)).geometry.type = "Point" ∧
      (linkTile (gridList 1 1 1) (_tile 1 0 0)).geometry.coordinates
        = _tile_xy 1 (linkTile (gridList 1 1 1) (_tile 1 0 0)).properties._id.1
            (linkTile (gridList 1 1 1) (_tile 1 0 0)).properties._id.2 ∧
      (linkTile (gridList 1 1 1) (_tile 1 0 0)).properties.subType = "Hexagon" ∧
      (linkTile (gridList 1 1 1) (_tile 1 0 0)).properties.outerRadius = 1 ∧
      (linkTile (gridList 1 1 1) (_tile 1 0 0)).properties.innerRadius = K * 1 ∧
      (∀ dn ∈ (linkTile (gridList 1 1 1) (_tile 1 0 0)).properties.neighbors,
        dn.1 ∈ DIRECTIONS.map Prod.fst) ∧
      tilePropertiesKeys = ["subType", "outerRadius", "innerRadius", "neighbors", "_id"] ∧
      (∃ i j : ℤ, (linkTile (gridList 1 1 1) (_tile 1 0 0)).properties._id = (i, j)) :=
  tile_shape 1 1 1 _
    (linkTile_mem_features (R := 1) (w := 1) (h := 1) (i := 0) (j := 0)
      (by decide) (by decide) (by decide) (by decide))

/-- C7: the grid `make_grid 5 8 7` contains the tile with native index (0,0)
at position (0,0); its "N" neighbor is the grid tile with native index (1,0)
at position (15/2, 5·cos 30°); and that neighbor's "S" neighbor reference is
the original (0,0) tile (the unique tile of the grid with native index
(0,0)). -/
theorem concrete_scenario :
    ∃ t ∈ (make_grid 5 8 7).features,
      t.properties._id = ((0 : ℤ), (0 : ℤ)) ∧
        t.geometry.coordinates = ((0 : ℝ), (0 : ℝ)) ∧
        ("N", ((1 : ℤ), (0 : ℤ))) ∈ t.properties.neighbors ∧
        (∃ N ∈ (make_grid 5 8 7).features,
          N.properties._id = ((1 : ℤ), (0 : ℤ)) ∧
            N.geometry.coordinates = ((15 / 2 : ℝ), 5 * K) ∧
            ("S", t.properties._id) ∈ N.properties.neighbors) ∧
        ∀ t' ∈ (make_grid 5 8 7).features,
          t'.properties._id = ((0 : ℤ), (0 : ℤ)) → t' = t := by
  refine ⟨linkTile (gridList 5 8 7) (_tile 5 0 0),
    linkTile_mem_features (R := 5) (w := 8) (h := 7) (i := 0) (j := 0)
      (by decide) (by decide) (by decide) (by decide),
    rfl, ?_, by decide,
    ⟨linkTile (gridList 5 8 7) (_tile 5 1 0),
      linkTile_mem_features (R := 5) (w := 8) (h := 7) (i := 1) (j := 0)
        (by decide) (by decide) (by decide) (by decide),
      rfl, ?_, by decide⟩, ?_⟩
  · show _tile_xy 5 0 0 = ((0 : ℝ), (0 : ℝ))
    unfold _tile_xy
    rw [Prod.mk.injEq]
    constructor <;> norm_num
  · show _tile_xy 5 1 0 = ((15 / 2 : ℝ), 5 * K)
    unfold _tile_xy
    rw [Prod.mk.injEq]
    constructor
    · norm_num
    · push_cast
      ring
  · intro t' ht' hid
    obtain ⟨p, hp, rfl⟩ := mem_make_grid_features.mp ht'
    have hij : _ij p.1 p.2 = _ij 0 0 := hid
    obtain ⟨h1, h2⟩ := _ij_inj hij
    have hp0 : p = ((0 : ℤ), (0 : ℤ)) := Prod.ext h1 h2
    rw [hp0]
    rfl

end Contor
